import Mathlib

/-!
# Runhouse cluster lifecycle and dispatch protocol: a verification model

The repository's observable material (docs, notebooks, CI) describes a
compute-orchestration layer: a cluster lifecycle state machine with
idempotent `ensure_up` / `teardown` and an autostop timer, and a
request/response dispatch protocol whose server returns a structured
`ResultEnvelope` (`data` / `error` / `traceback` / `output_type` /
`serialization`) for every call.  The Python implementation of these
components is not part of the available sources, so every definition
below is modelled from the specification's own words (each such
definition says so in its doc comment); theorems then settle the
specification's testable properties against this model.
-/

/- ## Serializable values and the JSON wire codec -/

/-- Modelled from the spec: the serializable payload values carried in
`args` / `data` fields of the dispatch protocol ("ordered sequence of
serialized values", JSON wire format at the call endpoint).  The missing
Python code is the serialization helpers of the dispatch client/server. -/
inductive Value : Type where
  | null : Value
  | bool (b : Bool) : Value
  | int (n : Int) : Value
  | str (s : String) : Value
  | arr (elems : List Value) : Value
deriving Repr

/-- The character for a decimal digit `d < 10`. -/
def digitChar (d : Nat) : Char := Char.ofNat (48 + d)

/-- The numeric value of a decimal digit character. -/
def charVal (c : Char) : Nat := c.toNat - 48

/-- Little-endian decimal digits of a natural number, with explicit fuel
so the definition is structural and kernel-evaluable. -/
def natDigitsAux : Nat → Nat → List Nat
  | 0, _ => []
  | _ + 1, 0 => []
  | fuel + 1, m + 1 => ((m + 1) % 10) :: natDigitsAux fuel ((m + 1) / 10)

/-- Big-endian decimal character representation of a natural number. -/
def natChars (m : Nat) : List Char :=
  if m = 0 then ['0'] else ((natDigitsAux m m).map digitChar).reverse

/-- JSON string escaping of one character (quote and backslash). -/
def escChar (c : Char) : List Char :=
  if c = '"' then ['\\', '"']
  else if c = '\\' then ['\\', '\\']
  else [c]

/-- JSON string escaping of a character list. -/
def escStr : List Char → List Char
  | [] => []
  | c :: cs => escChar c ++ escStr cs

/-- The keyword spelling of the JSON `null` literal. -/
def kwNull : List Char := "null".data

/-- The keyword spelling of the JSON `true` literal. -/
def kwTrue : List Char := "true".data

/-- The keyword spelling of the JSON `false` literal. -/
def kwFalse : List Char := "false".data

mutual

/-- Modelled from the spec: the JSON printer for serializable values,
realizing the `serialization = "json"` wire format shown at the call
endpoint in the docs notebook. -/
def printV : Value → List Char
  | .null => kwNull
  | .bool true => kwTrue
  | .bool false => kwFalse
  | .int n => if n < 0 then '-' :: natChars n.natAbs else natChars n.toNat
  | .str s => '"' :: (escStr s.data ++ ['"'])
  | .arr vs => '[' :: (printElems vs ++ [']'])

/-- Comma-separated printing of array elements (no brackets). -/
def printElems : List Value → List Char
  | [] => []
  | v :: vs => printV v ++ (match vs with | [] => [] | _ :: _ => [',']) ++ printElems vs

end

/-- Consume an expected literal token from the front of the input. -/
def stripTok : List Char → List Char → Option (List Char)
  | [], input => some input
  | t :: ts, c :: cs => if c = t then stripTok ts cs else none
  | _ :: _, [] => none

/-- Split off the leading run of decimal digit characters, returning
their digit values together with the unconsumed remainder. -/
def digitSpan : List Char → (List Nat × List Char)
  | [] => ([], [])
  | c :: cs =>
    match c.isDigit with
    | true => let p := digitSpan cs; (charVal c :: p.1, p.2)
    | false => ([], c :: cs)

/-- The natural number denoted by a big-endian digit-value list. -/
def natOfChars (ds : List Nat) : Nat := Nat.ofDigits 10 ds.reverse

/-- Parse the body of a JSON string after the opening quote, undoing
`escStr`, up to the closing quote. -/
def parseStrBody : List Char → Option (List Char × List Char)
  | [] => none
  | c :: cs =>
    if c = '"' then some ([], cs)
    else if c = '\\' then
      match cs with
      | [] => none
      | e :: cs' =>
        if e = '"' ∨ e = '\\' then (parseStrBody cs').map (fun p => (e :: p.1, p.2))
        else none
    else (parseStrBody cs).map (fun p => (c :: p.1, p.2))

mutual

/-- Modelled from the spec: the JSON parser for serializable values (the
client "decodes the result envelope").  Fuel bounds the nesting depth. -/
def parseV : Nat → List Char → Option (Value × List Char)
  | 0, _ => none
  | _ + 1, [] => none
  | fuel + 1, c :: cs =>
    if c.isDigit then
      let (ds, r) := digitSpan (c :: cs)
      some (.int (natOfChars ds), r)
    else if c = '-' then
      match digitSpan cs with
      | ([], _) => none
      | (ds, r) => some (.int (-(natOfChars ds : Int)), r)
    else if c = '"' then
      (parseStrBody cs).map (fun p => (.str (String.mk p.1), p.2))
    else if c = '[' then
      (parseElems fuel cs).map (fun p => (.arr p.1, p.2))
    else
      match stripTok kwNull (c :: cs) with
      | some r => some (.null, r)
      | none =>
        match stripTok kwTrue (c :: cs) with
        | some r => some (.bool true, r)
        | none =>
          match stripTok kwFalse (c :: cs) with
          | some r => some (.bool false, r)
          | none => none

/-- Parse comma-separated array elements up to the closing bracket. -/
def parseElems : Nat → List Char → Option (List Value × List Char)
  | 0, _ => none
  | _ + 1, [] => none
  | fuel + 1, c :: cs =>
    if c = ']' then some ([], cs)
    else
      match parseV fuel (c :: cs) with
      | none => none
      | some (v, r) =>
        match r with
        | ',' :: r2 => (parseElems fuel r2).map (fun p => (v :: p.1, p.2))
        | ']' :: r2 => some ([v], r2)
        | _ => none

end

mutual

/-- Nesting/width measure giving sufficient parser fuel for a value. -/
def mV : Value → Nat
  | .null => 1
  | .bool _ => 1
  | .int _ => 1
  | .str _ => 1
  | .arr vs => mE vs + 1

/-- Fuel measure for an element list. -/
def mE : List Value → Nat
  | [] => 1
  | v :: vs => max (mV v) (mE vs) + 1

end

/-- Modelled from the spec: JSON-encode a serializable value to a string
(the content of the `data` field when `serialization == "json"`). -/
def jsonEncode (v : Value) : String := String.mk (printV v)

/-- Modelled from the spec: decode a JSON string back to a value; the
client-side decoding step of the dispatch protocol. -/
def jsonDecode (s : String) : Option Value :=
  match parseV (s.data.length + 1) s.data with
  | some (v, []) => some v
  | _ => none

example : jsonEncode (.arr [.int 15, .str "hi", .null, .bool true, .int (-3)])
    = "[15,\"hi\",null,true,-3]" := by rfl

example : jsonDecode "[15,\"hi\",null,true,-3]"
    = some (.arr [.int 15, .str "hi", .null, .bool true, .int (-3)]) := by rfl

example : jsonEncode (.str "Run home Marvin!") = "\"Run home Marvin!\"" := by rfl

/- ## Codec roundtrip lemmas -/

/-- Head of the remaining input is not a digit (so a parsed number ends). -/
def noDigitHead : List Char → Bool
  | [] => true
  | c :: _ => !c.isDigit

theorem digitChar_isDigit : ∀ d, d < 10 → (digitChar d).isDigit = true := by decide

theorem charVal_digitChar : ∀ d, d < 10 → charVal (digitChar d) = d := by decide

theorem natDigitsAux_lt : ∀ fuel m d, d ∈ natDigitsAux fuel m → d < 10 := by
  intro fuel
  induction fuel with
  | zero => intro m d h; simp [natDigitsAux] at h
  | succ f ih =>
    intro m d h
    match m with
    | 0 => simp [natDigitsAux] at h
    | k + 1 =>
      simp only [natDigitsAux, List.mem_cons] at h
      rcases h with h | h
      · omega
      · exact ih _ _ h

theorem natDigitsAux_lt' {fuel m d : Nat} (h : d ∈ natDigitsAux fuel m) : d < 10 := by
  have hm := Nat.mod_lt m (by omega : (0:Nat) < 10)
  exact natDigitsAux_lt fuel m d h

theorem natDigitsAux_eq_digits : ∀ fuel m, m ≤ fuel → natDigitsAux fuel m = Nat.digits 10 m := by
  intro fuel
  induction fuel with
  | zero => intro m h; interval_cases m; simp [natDigitsAux]
  | succ f ih =>
    intro m h
    match m with
    | 0 => simp [natDigitsAux]
    | k + 1 =>
      rw [natDigitsAux, Nat.digits_def' (by norm_num : (1:ℕ) < 10) (Nat.succ_pos k)]
      congr 1
      exact ih _ (by omega : (k + 1) / 10 ≤ f)

theorem natChars_isDigit : ∀ m c, c ∈ natChars m → c.isDigit = true := by
  intro m c h
  by_cases hm : m = 0
  · subst hm; simp [natChars] at h; subst h; decide
  · simp only [natChars, if_neg hm, List.mem_reverse, List.mem_map] at h
    obtain ⟨d, hd, rfl⟩ := h
    exact digitChar_isDigit d (natDigitsAux_lt _ _ _ hd)

theorem natChars_ne_nil : ∀ m, natChars m ≠ [] := by
  intro m
  by_cases hm : m = 0
  · subst hm; simp [natChars]
  · simp only [natChars, if_neg hm]
    match m, hm with
    | k + 1, _ => simp [natDigitsAux]

theorem natOfChars_natChars : ∀ m, natOfChars ((natChars m).map charVal) = m := by
  intro m
  by_cases hm : m = 0
  · subst hm
    have : charVal '0' = 0 := by decide
    simp [natChars, natOfChars, this, Nat.ofDigits]
  · simp only [natChars, if_neg hm, natOfChars, List.map_reverse, List.map_map,
      List.reverse_reverse]
    have hmap : (natDigitsAux m m).map (charVal ∘ digitChar) = (natDigitsAux m m).map id :=
      List.map_congr_left (fun d hd => charVal_digitChar d (natDigitsAux_lt _ _ _ hd))
    rw [hmap, List.map_id, natDigitsAux_eq_digits m m le_rfl, Nat.ofDigits_digits]

theorem digitSpan_append : ∀ pre rest, (∀ c ∈ pre, c.isDigit = true) →
    noDigitHead rest = true → digitSpan (pre ++ rest) = (pre.map charVal, rest) := by
  intro pre
  induction pre with
  | nil =>
    intro rest _ hr
    match rest with
    | [] => simp [digitSpan]
    | c :: cs =>
      simp only [noDigitHead, Bool.not_eq_true'] at hr
      simp [digitSpan, hr]
  | cons c pre ih =>
    intro rest hall hr
    have hc : c.isDigit = true := hall c (by simp)
    have hih := ih rest (fun x hx => hall x (by simp [hx])) hr
    simp [digitSpan, hc, hih]

theorem stripTok_append : ∀ tok rest, stripTok tok (tok ++ rest) = some rest := by
  intro tok
  induction tok with
  | nil => intro rest; simp [stripTok]
  | cons t ts ih => intro rest; simp [stripTok, ih]

theorem parseStrBody_esc : ∀ s rest, parseStrBody (escStr s ++ '"' :: rest) = some (s, rest) := by
  intro s
  induction s with
  | nil =>
    intro rest
    rw [show escStr [] ++ '"' :: rest = '"' :: rest from rfl, parseStrBody.eq_def]
    simp
  | cons c cs ih =>
    intro rest
    by_cases h1 : c = '"'
    · subst h1
      simp only [escStr, escChar, if_pos rfl, List.cons_append, List.append_assoc]
      rw [parseStrBody.eq_def]
      simp [ih]
    · by_cases h2 : c = '\\'
      · subst h2
        simp only [escStr, escChar, if_neg (by decide : ¬ ('\\' : Char) = '"'), if_pos rfl,
          List.cons_append, List.append_assoc]
        rw [parseStrBody.eq_def]
        simp [ih]
      · simp only [escStr, escChar, if_neg h1, if_neg h2, List.cons_append, List.singleton_append]
        rw [parseStrBody.eq_def]
        simp [h1, h2, ih]

theorem mV_pos : ∀ v, 1 ≤ mV v := by
  intro v; cases v <;> simp [mV]

theorem mE_pos : ∀ vs, 1 ≤ mE vs := by
  intro vs; cases vs <;> simp [mE]

/-- Every printed value starts with a character other than the array
delimiters, so element parsing dispatches correctly. -/
theorem printV_head : ∀ v : Value, ∃ c t, printV v = c :: t ∧ ¬ c = ']' := by
  intro v
  cases v with
  | null => exact ⟨'n', _, rfl, by decide⟩
  | bool b =>
    cases b
    · exact ⟨'f', _, rfl, by decide⟩
    · exact ⟨'t', _, rfl, by decide⟩
  | str s => exact ⟨'"', _, rfl, by decide⟩
  | arr vs => exact ⟨'[', _, rfl, by decide⟩
  | int n =>
    by_cases hn : n < 0
    · refine ⟨'-', natChars n.natAbs, ?_, by decide⟩
      rw [printV.eq_def]; simp [hn]
    · obtain ⟨c0, t, hct⟩ := List.exists_cons_of_ne_nil (natChars_ne_nil n.toNat)
      refine ⟨c0, t, ?_, ?_⟩
      · rw [printV.eq_def]; simp [hn, hct]
      · have hd := natChars_isDigit n.toNat c0 (by rw [hct]; simp)
        intro hEq
        rw [hEq] at hd
        exact absurd hd (by decide)

/-- Completeness of the JSON parser on printed output: parsing a printed
value with enough fuel consumes exactly the printed characters. -/
theorem parsePrint : ∀ fuel : Nat,
    (∀ v rest, mV v ≤ fuel → noDigitHead rest = true →
      parseV fuel (printV v ++ rest) = some (v, rest)) ∧
    (∀ vs rest, mE vs ≤ fuel →
      parseElems fuel (printElems vs ++ ']' :: rest) = some (vs, rest)) := by
  intro fuel
  induction fuel using Nat.strong_induction_on with
  | _ fuel ih =>
    constructor
    · intro v rest hm hr
      cases fuel with
      | zero => exact absurd hm (by have := mV_pos v; omega)
      | succ f =>
        cases v with
        | null =>
          rw [show printV .null ++ rest = 'n' :: 'u' :: 'l' :: 'l' :: rest from rfl,
            parseV.eq_def]
          simp [stripTok]
        | bool b =>
          cases b
          · rw [show printV (.bool false) ++ rest = 'f' :: 'a' :: 'l' :: 's' :: 'e' :: rest
              from rfl, parseV.eq_def]
            simp [stripTok]
          · rw [show printV (.bool true) ++ rest = 't' :: 'r' :: 'u' :: 'e' :: rest from rfl,
              parseV.eq_def]
            simp [stripTok]
        | str s =>
          obtain ⟨l⟩ := s
          rw [show printV (.str ⟨l⟩) ++ rest = '"' :: (escStr l ++ '"' :: rest) from by
            simp [printV], parseV.eq_def]
          simp [parseStrBody_esc l rest]
        | arr vs =>
          have hB := (ih f (by omega)).2 vs rest (by simp [mV] at hm; omega)
          rw [show printV (.arr vs) ++ rest = '[' :: (printElems vs ++ ']' :: rest) from by
            simp [printV], parseV.eq_def]
          simp [hB]
        | int n =>
          by_cases hn : n < 0
          · obtain ⟨c0, t, hct⟩ := List.exists_cons_of_ne_nil (natChars_ne_nil n.natAbs)
            have hta := digitSpan_append (natChars n.natAbs) rest
              (natChars_isDigit n.natAbs) hr
            have hv : natOfChars (charVal c0 :: t.map charVal) = n.natAbs := by
              have h2 := natOfChars_natChars n.natAbs
              rw [hct] at h2
              simpa using h2
            have hta' : digitSpan (c0 :: (t ++ rest)) = (charVal c0 :: t.map charVal, rest) := by
              rw [hct] at hta
              simpa using hta
            rw [show printV (.int n) ++ rest = '-' :: (natChars n.natAbs ++ rest) from by
              rw [printV.eq_def]; simp [hn], parseV.eq_def]
            simp [hct, hta', hv, abs_of_neg hn]
          · obtain ⟨c0, t, hct⟩ := List.exists_cons_of_ne_nil (natChars_ne_nil n.toNat)
            have hd : c0.isDigit = true := natChars_isDigit n.toNat c0 (by rw [hct]; simp)
            have hback : c0 :: (t ++ rest) = natChars n.toNat ++ rest := by
              rw [hct, List.cons_append]
            have hta := digitSpan_append (natChars n.toNat) rest
              (natChars_isDigit n.toNat) hr
            have hv := natOfChars_natChars n.toNat
            rw [show printV (.int n) ++ rest = c0 :: (t ++ rest) from by
              rw [printV.eq_def]; simp [hn, hct], parseV.eq_def]
            simp [hd, hback, hta, hv, show ((n.toNat : Nat) : Int) = n from by omega]
    · intro vs rest hm
      cases fuel with
      | zero => exact absurd hm (by have := mE_pos vs; omega)
      | succ f =>
        cases vs with
        | nil =>
          rw [show printElems [] ++ ']' :: rest = ']' :: rest from rfl, parseElems.eq_def]
          simp
        | cons v vs' =>
          have hmv : mV v ≤ f := by simp [mE] at hm; omega
          have hmvs : mE vs' ≤ f := by simp [mE] at hm; omega
          obtain ⟨c0, t, hct, hne⟩ := printV_head v
          cases vs' with
          | nil =>
            have hA := (ih f (by omega)).1 v (']' :: rest) hmv
              (by simp only [noDigitHead]; decide)
            have hback : c0 :: (t ++ ']' :: rest) = printV v ++ ']' :: rest := by
              rw [hct, List.cons_append]
            rw [show printElems [v] ++ ']' :: rest = c0 :: (t ++ ']' :: rest) from by
              simp [printElems, hct], parseElems.eq_def]
            simp [hne, hback, hA]
          | cons w ws =>
            have hA := (ih f (by omega)).1 v
              (',' :: (printElems (w :: ws) ++ ']' :: rest)) hmv
              (by simp only [noDigitHead]; decide)
            have hB := (ih f (by omega)).2 (w :: ws) rest hmvs
            have hback : c0 :: (t ++ (',' :: (printElems (w :: ws) ++ ']' :: rest)))
                = printV v ++ (',' :: (printElems (w :: ws) ++ ']' :: rest)) := by
              rw [hct, List.cons_append]
            rw [show printElems (v :: w :: ws) ++ ']' :: rest
                = c0 :: (t ++ (',' :: (printElems (w :: ws) ++ ']' :: rest))) from by
              simp [printElems, hct], parseElems.eq_def]
            simp [hne, hback, hA, hB]


/-- Simultaneous induction principle for the nested `Value` / `List Value`
structure, derived from the fuel measure. -/
theorem valueAux (P : Value → Prop) (Q : List Value → Prop)
    (h1 : P .null) (h2 : ∀ b, P (.bool b)) (h3 : ∀ n, P (.int n)) (h4 : ∀ s, P (.str s))
    (h5 : ∀ vs, Q vs → P (.arr vs)) (h6 : Q []) (h7 : ∀ v vs, P v → Q vs → Q (v :: vs)) :
    (∀ v, P v) ∧ (∀ vs, Q vs) := by
  have key : ∀ k, (∀ v, mV v ≤ k → P v) ∧ (∀ vs, mE vs ≤ k → Q vs) := by
    intro k
    induction k using Nat.strong_induction_on with
    | _ k ih =>
      constructor
      · intro v hv
        cases v with
        | null => exact h1
        | bool b => exact h2 b
        | int n => exact h3 n
        | str s => exact h4 s
        | arr vs =>
          cases k with
          | zero => exact absurd hv (by have := mV_pos (.arr vs); omega)
          | succ k' =>
            exact h5 vs ((ih k' (by omega)).2 vs (by simp [mV] at hv; omega))
      · intro vs hvs
        cases vs with
        | nil => exact h6
        | cons v vs' =>
          cases k with
          | zero => exact absurd hvs (by have := mE_pos (v :: vs'); omega)
          | succ k' =>
            have hA := (ih k' (by omega)).1 v (by simp [mE] at hvs; omega)
            have hB := (ih k' (by omega)).2 vs' (by simp [mE] at hvs; omega)
            exact h7 v vs' hA hB
  exact ⟨fun v => (key (mV v)).1 v le_rfl, fun vs => (key (mE vs)).2 vs le_rfl⟩

theorem printV_length_pos : ∀ v, 1 ≤ (printV v).length := by
  intro v
  obtain ⟨c, t, hct, _⟩ := printV_head v
  simp [hct]

/-- The fuel measure is dominated by the printed length, so length-based
fuel always suffices for the parser. -/
theorem mV_le_length :
    (∀ v, mV v ≤ (printV v).length) ∧ (∀ vs, mE vs ≤ (printElems vs).length + 1) := by
  apply valueAux
  · decide
  · intro b; cases b <;> decide
  · intro n
    have := printV_length_pos (.int n)
    simp [mV]; omega
  · intro s
    simp [mV, printV]
  · intro vs h
    simp only [mV, printV, List.length_cons, List.length_append]
    simp at h ⊢
    omega
  · decide
  · intro v vs hA hB
    have hpos := printV_length_pos v
    cases vs with
    | nil =>
      simp only [mE, printElems, List.append_nil, List.length_append]
      simp [mE] at hB ⊢
      omega
    | cons w ws =>
      simp only [mE, printElems, List.length_append, List.length_cons] at hB ⊢
      omega

/-- Decode after encode is the identity: the verified JSON codec of the
dispatch protocol round-trips every serializable value. -/
theorem jsonDecode_jsonEncode : ∀ v, jsonDecode (jsonEncode v) = some v := by
  intro v
  have h := (parsePrint ((printV v).length + 1)).1 v []
    (le_trans (mV_le_length.1 v) (by omega)) (by simp [noDigitHead])
  rw [List.append_nil] at h
  have hd : (jsonEncode v).data = printV v := rfl
  simp [jsonDecode, hd, h]

/- ## Dispatch protocol: envelopes, server, client -/

/-- Modelled from the spec: `output_type` enum of a ResultEnvelope
(`result | result_serialized | exception | log_chunk`). -/
inductive OutputType where
  | result
  | resultSerialized
  | exception
  | logChunk
deriving DecidableEq, Repr

/-- A terminal envelope is anything but a streamed `log_chunk`. -/
def OutputType.isTerminal : OutputType → Bool
  | .logChunk => false
  | _ => true

/-- Modelled from the spec: `serialization` enum
(`json | pickle-equivalent | none`); `raw` stands for `none`.  The spec
fixes no byte format for `pickle-equivalent`, so the model reuses the
verified codec for it. -/
inductive Serialization where
  | json
  | pickleEquiv
  | raw
deriving DecidableEq, Repr

/-- Modelled from the spec: the ResultEnvelope of the dispatch protocol
(`data`, `error`, `traceback`, `output_type`, `serialization`). -/
structure ResultEnvelope where
  data : Option Value
  error : Option String
  traceback : Option String
  outputType : OutputType
  serialization : Serialization

/-- Modelled from the spec: the CallEnvelope (`resource_name`, `method`,
`args`, `run_async`, `stream_logs`), plus the bearer token the transport
carries for the den-auth gate. -/
structure CallEnvelope where
  resource : String
  method : String
  args : List Value
  token : Option String
  serialization : Serialization
  runAsync : Bool
  streamLogs : Bool

/-- Modelled from the spec: a structured remote execution failure,
captured into the `error`/`traceback` fields. -/
structure RemoteErr where
  message : String
  trace : String

/-- Modelled from the spec: the DispatchServer's resource table plus the
cluster's auth configuration (`den_auth_required`, verifiable tokens). -/
structure ServerState where
  resources : List (String × (List Value → Except RemoteErr Value))
  denAuthRequired : Bool
  validTokens : List String

/-- Name-keyed lookup in the server's resource table. -/
def lookupRes (table : List (String × (List Value → Except RemoteErr Value)))
    (name : String) : Option (List Value → Except RemoteErr Value) :=
  match table with
  | [] => none
  | (n, f) :: rest => if n = name then some f else lookupRes rest name

/-- A bearer credential is verifiable iff it is one of the valid tokens. -/
def tokenValid (st : ServerState) : Option String → Bool
  | none => false
  | some t => st.validTokens.contains t

/-- The auth gate passes when den auth is off or the token verifies. -/
def authOk (st : ServerState) (req : CallEnvelope) : Bool :=
  !st.denAuthRequired || tokenValid st req.token

/-- Encode a successful return value per the negotiated serialization. -/
def encodePayload : Serialization → Value → Option Value × OutputType
  | .json, v => (some (.str (jsonEncode v)), .resultSerialized)
  | .pickleEquiv, v => (some (.str (jsonEncode v)), .resultSerialized)
  | .raw, v => (some v, .result)

/-- Modelled from the spec: what the server can send back on a call.  A
`transportFault` is a failure of the transport itself (the shape the
spec forbids for execution errors); `authFailure` is the authorization
failure sent before execution. -/
inductive ServerResponse where
  | envelope (env : ResultEnvelope)
  | authFailure (msg : String)
  | transportFault (msg : String)

/-- The server's reply paired with whether resource code actually ran. -/
structure DispatchOutcome where
  response : ServerResponse
  executed : Bool

/-- Modelled from the spec: the DispatchServer call handler.  Checks the
den-auth gate first, then looks up the resource (`ResourceNotFound` when
absent), executes it, and captures any raised failure into the
`error`/`traceback` fields of an exception envelope.  The handler is a
total function: a bad call never crashes the server process. -/
def handleCall (st : ServerState) (req : CallEnvelope) : DispatchOutcome :=
  if authOk st req then
    match lookupRes st.resources req.resource with
    | none =>
      ⟨.envelope ⟨none, some ("ResourceNotFound: " ++ req.resource),
        some "Traceback: resource lookup failed", .exception, req.serialization⟩, false⟩
    | some impl =>
      match impl req.args with
      | .error e =>
        ⟨.envelope ⟨none, some e.message, some e.trace, .exception, req.serialization⟩, true⟩
      | .ok v =>
        ⟨.envelope ⟨(encodePayload req.serialization v).1, none, none,
          (encodePayload req.serialization v).2, req.serialization⟩, true⟩
  else ⟨.authFailure "401: bearer credential missing or invalid", false⟩

/-- Modelled from the spec: the DispatchClient builds the CallEnvelope
and sends it through the ConnectionLayer to the resident server. -/
def clientCall (st : ServerState) (resource : String) (args : List Value)
    (token : Option String) (ser : Serialization) : DispatchOutcome :=
  handleCall st ⟨resource, "call", args, token, ser, false, false⟩

/-- Modelled from the spec: client-side decoding of a terminal envelope's
`data` field per its `serialization`. -/
def decodeData (env : ResultEnvelope) : Option Value :=
  match env.outputType, env.data with
  | .result, some v => some v
  | .resultSerialized, some (.str s) => jsonDecode s
  | _, _ => none

/-- A no-op identity resource: returns its single argument unchanged. -/
def identityImpl : List Value → Except RemoteErr Value
  | [v] => .ok v
  | _ => .error ⟨"arity mismatch", "Traceback: identity expects one argument"⟩

/- ## Cluster lifecycle state machine -/

/-- Modelled from the spec: the cluster `status` enum
(`UNPROVISIONED | PROVISIONING | RUNNING | STOPPING | TERMINATED`). -/
inductive Status where
  | unprovisioned
  | provisioning
  | running
  | stopping
  | terminated
deriving DecidableEq, Repr

/-- Modelled from the spec: the per-cluster state the
ClusterLifecycleManager owns: the status together with the instance
generation, a fresh number per provider "create instance" call, so a
relaunch never reuses a terminated instance identity. -/
structure LMState where
  status : Status
  gen : Nat
deriving DecidableEq, Repr

/-- Modelled from the spec: the transitions the ClusterLifecycleManager
performs.  Since the manager is the only mutator of `status`, this
relation is the full set of reachable status transitions. -/
inductive LMStep : LMState → LMState → Prop where
  | provisionFresh (s : LMState) : s.status = .unprovisioned →
      LMStep s ⟨.provisioning, s.gen + 1⟩
  | provisionOk (s : LMState) : s.status = .provisioning → LMStep s ⟨.running, s.gen⟩
  | provisionFail (s : LMState) : s.status = .provisioning → LMStep s ⟨.unprovisioned, s.gen⟩
  | probeOk (s : LMState) : s.status = .running → LMStep s ⟨.running, s.gen⟩
  | stopBegin (s : LMState) : s.status = .running → LMStep s ⟨.stopping, s.gen⟩
  | stopDone (s : LMState) : s.status = .stopping → LMStep s ⟨.terminated, s.gen⟩
  | teardownNow (s : LMState) : s.status = .running → LMStep s ⟨.terminated, s.gen⟩
  | relaunch (s : LMState) : s.status = .terminated → LMStep s ⟨.provisioning, s.gen + 1⟩

/-- The status edges the specification names, and no others. -/
def allowedEdge : Status → Status → Bool
  | .unprovisioned, .provisioning => true
  | .provisioning, .running => true
  | .provisioning, .unprovisioned => true
  | .running, .running => true
  | .running, .stopping => true
  | .running, .terminated => true
  | .stopping, .terminated => true
  | .terminated, .provisioning => true
  | _, _ => false

/- ## ClusterLifecycleManager operations -/

/-- Modelled from the spec: the mutable per-cluster record the manager
drives: status, provider "create instance" call count, the autostop
countdown (`none` = no armed timer), the configured `autostop_minutes`
(`0` = disabled), in-flight call count, and the ConnectionLayer handle. -/
structure ClusterState where
  status : Status
  createCalls : Nat
  timer : Option Nat
  autostopMinutes : Nat
  inFlight : Nat
  conn : Bool
deriving DecidableEq, Repr

/-- Re-arm the autostop countdown from the configured idle period. -/
def resetTimer (st : ClusterState) : ClusterState :=
  {st with timer := if st.autostopMinutes = 0 then none else some st.autostopMinutes}

/-- Modelled from the spec: the provisioning environment — whether the
provider create/locate call succeeds and whether a live health probe of
a RUNNING cluster succeeds. -/
structure ProvEnv where
  provisionOk : Bool
  probeOk : Bool

/-- The outcome a caller of `ensure_up` observes. -/
inductive EnsureOutcome where
  | ok
  | failed
deriving DecidableEq, Repr

/-- The state after a successful create call: RUNNING, connected, one
more provider call, timer re-armed. -/
def provisionedOf (st : ClusterState) : ClusterState :=
  resetTimer {st with status := .running, createCalls := st.createCalls + 1, conn := true}

/-- One provisioning attempt: provider create call, then `RUNNING` on
success or back to `UNPROVISIONED` on failure (retryable). -/
def provisionNow (env : ProvEnv) (st : ClusterState) : ClusterState × EnsureOutcome :=
  if env.provisionOk then (provisionedOf st, .ok)
  else ({st with status := .unprovisioned}, .failed)

/-- Modelled from the spec: `ensure_up`.  If RUNNING and a live health
probe succeeds it returns immediately (resetting the autostop timer);
otherwise it provisions.  Callers serialize on the per-cluster-name
provisioning lock, so concurrent `ensure_up` calls are modelled as the
sequential composition `runCallers`. -/
def ensureUp (env : ProvEnv) (st : ClusterState) : ClusterState × EnsureOutcome :=
  match st.status with
  | .running => if env.probeOk then (resetTimer st, .ok) else provisionNow env st
  | _ => provisionNow env st

/-- N concurrent callers of `ensure_up`, serialized by the per-name
provisioning lock; returns the final state and every caller's outcome. -/
def runCallers (env : ProvEnv) : Nat → ClusterState → ClusterState × List EnsureOutcome
  | 0, st => (st, [])
  | n + 1, st =>
    let p := ensureUp env st
    let q := runCallers env n p.1
    (q.1, p.2 :: q.2)

/-- Modelled from the spec: `teardown`.  If already TERMINATED or
UNPROVISIONED it changes nothing except cancelling the autostop timer;
otherwise provider termination runs, the ConnectionLayer is invalidated
and the status becomes TERMINATED.  The autostop timer is always
cancelled.  Total: it never errors. -/
def teardown (st : ClusterState) : ClusterState :=
  if st.status = .terminated ∨ st.status = .unprovisioned then
    {st with timer := none}
  else
    {st with status := .terminated, conn := false, timer := none}

/-- Modelled from the spec: events driving the autostop countdown — a
clock tick, a call starting, and a call ending (successful or not). -/
inductive AEvent where
  | tick
  | callStart
  | callEnd (success : Bool)

/-- Modelled from the spec: the autostop timer step.  The countdown is
reset on every successful dispatch; on expiry with no pending in-flight
calls it triggers `teardown`; an in-flight call delays the timer (it is
extended) and is never interrupted. -/
def astep (st : ClusterState) : AEvent → ClusterState
  | .callStart => {st with inFlight := st.inFlight + 1}
  | .callEnd success =>
    if success then resetTimer {st with inFlight := st.inFlight - 1}
    else {st with inFlight := st.inFlight - 1}
  | .tick =>
    match st.timer with
    | none => st
    | some (k + 1) => {st with timer := some k}
    | some 0 => if st.inFlight = 0 then teardown st else resetTimer st

/-- Iterated clock ticks with no dispatch activity. -/
def ticks : Nat → ClusterState → ClusterState
  | 0, st => st
  | n + 1, st => ticks n (astep st .tick)

/- ## Provisioning retry policy -/

/-- Modelled from the spec: provider-side provisioning failures; rate
limits and capacity are transient, quota-exceeded and invalid
credentials are fatal. -/
inductive PFail where
  | rateLimit
  | capacity
  | quotaExceeded
  | invalidCredentials
deriving DecidableEq, Repr

/-- Whether a provisioning failure is transient (retryable). -/
def PFail.isTransient : PFail → Bool
  | .rateLimit => true
  | .capacity => true
  | .quotaExceeded => false
  | .invalidCredentials => false

/-- Trace of a provisioning run: provider calls issued, the backoff
delays slept between attempts, and the final result. -/
structure ProvRun where
  calls : Nat
  delays : List Nat
  result : Except PFail String

/-- Modelled from the spec: retry transient provisioning failures up to
a bounded budget with exponential backoff (`base * 2 ^ attempt`); a
fatal failure is surfaced immediately without retry.  `provider i` is
the provider's response to the i-th create call. -/
def provisionAttempts (provider : Nat → Except PFail String) (base : Nat) :
    Nat → Nat → ProvRun
  | idx, 0 =>
    match provider idx with
    | .ok a => ⟨1, [], .ok a⟩
    | .error f => ⟨1, [], .error f⟩
  | idx, b + 1 =>
    match provider idx with
    | .ok a => ⟨1, [], .ok a⟩
    | .error f =>
      if f.isTransient then
        let r := provisionAttempts provider base (idx + 1) b
        ⟨r.calls + 1, (base * 2 ^ idx) :: r.delays, r.result⟩
      else ⟨1, [], .error f⟩

/-- A whole provisioning run: attempt 0 with the full retry budget. -/
def provision (provider : Nat → Except PFail String) (base maxRetries : Nat) : ProvRun :=
  provisionAttempts provider base 0 maxRetries

/- ## Lifecycle lemmas -/

theorem lmstep_allowed : ∀ s s', LMStep s s' → allowedEdge s.status s'.status = true := by
  intro s s' h
  cases h <;> rename_i hstat <;> rw [hstat] <;> rfl

theorem lmstep_gen_le : ∀ s s', LMStep s s' → s.gen ≤ s'.gen := by
  intro s s' h
  cases h <;> simp

theorem rtg_gen_le : ∀ s s', Relation.ReflTransGen LMStep s s' → s.gen ≤ s'.gen := by
  intro s s' h
  induction h with
  | refl => exact le_rfl
  | tail hab hbc ih => exact le_trans ih (lmstep_gen_le _ _ hbc)

theorem lmstep_terminated_gen : ∀ s s', LMStep s s' → s.status = .terminated →
    s'.gen = s.gen + 1 := by
  intro s s' h hs
  cases h <;> rename_i hstat <;> rw [hstat] at hs <;> simp_all

theorem runCallers_of_running : ∀ env n st, env.probeOk = true → st.status = .running →
    (runCallers env n st).1.createCalls = st.createCalls ∧
    (runCallers env n st).1.status = .running ∧
    (runCallers env n st).2 = List.replicate n .ok := by
  intro env n
  induction n with
  | zero => intro st _ hs; simp [runCallers, hs]
  | succ k ih =>
    intro st hp hs
    have he : ensureUp env st = (resetTimer st, .ok) := by
      rw [ensureUp.eq_def, hs]
      simp [hp]
    have hr : (resetTimer st).status = .running := by simp [resetTimer, hs]
    have hc : (resetTimer st).createCalls = st.createCalls := by simp [resetTimer]
    obtain ⟨h1, h2, h3⟩ := ih (resetTimer st) hp hr
    refine ⟨?_, ?_, ?_⟩ <;> simp [runCallers, he, h1, h2, h3, hc, List.replicate_succ]

theorem teardown_status_terminated : ∀ st : ClusterState, st.status ≠ .unprovisioned →
    (teardown st).status = .terminated := by
  intro st h
  by_cases ht : st.status = .terminated
  · simp [teardown, ht]
  · simp [teardown, ht, h]

theorem ticks_expire : ∀ k (st : ClusterState), st.timer = some k → st.inFlight = 0 →
    st.status ≠ .unprovisioned → (ticks (k + 1) st).status = .terminated := by
  intro k
  induction k with
  | zero =>
    intro st ht hf hs
    have hstep : astep st .tick = teardown st := by
      simp [astep, ht, hf]
    rw [show ticks 1 st = ticks 0 (astep st .tick) from rfl, hstep]
    exact teardown_status_terminated st hs
  | succ j ih =>
    intro st ht hf hs
    have hstep : astep st .tick = {st with timer := some j} := by simp [astep, ht]
    rw [show ticks (j + 1 + 1) st = ticks (j + 1) (astep st .tick) from rfl, hstep]
    exact ih _ rfl (by simpa using hf) (by simpa using hs)

/- ## Provisioning retry lemmas -/

theorem provisionAttempts_calls_le : ∀ (provider : Nat → Except PFail String) base budget idx,
    (provisionAttempts provider base idx budget).calls ≤ budget + 1 := by
  intro provider base budget
  induction budget with
  | zero =>
    intro idx
    cases hpi : provider idx with
    | ok a => simp [provisionAttempts, hpi]
    | error f => simp [provisionAttempts, hpi]
  | succ b ih =>
    intro idx
    cases hpi : provider idx with
    | ok a => simp [provisionAttempts, hpi]
    | error f =>
      by_cases hf : f.isTransient
      · have := ih (idx + 1)
        simp only [provisionAttempts, hpi, hf, if_true]
        simp
        omega
      · simp [provisionAttempts, hpi, hf]

theorem provisionAttempts_fatal : ∀ (provider : Nat → Except PFail String) base k budget idx f,
    (∀ i, i < k → ∃ g, provider (idx + i) = .error g ∧ g.isTransient = true) →
    provider (idx + k) = .error f → f.isTransient = false → k ≤ budget →
    (provisionAttempts provider base idx budget).result = .error f ∧
    (provisionAttempts provider base idx budget).calls = k + 1 := by
  intro provider base k
  induction k with
  | zero =>
    intro budget idx f _ hk hf _
    rw [show idx + 0 = idx from rfl] at hk
    cases budget with
    | zero => simp [provisionAttempts, hk]
    | succ b => simp [provisionAttempts, hk, hf]
  | succ j ih =>
    intro budget idx f hall hk hf hb
    obtain ⟨g, hg, hgt⟩ := hall 0 (by omega)
    rw [show idx + 0 = idx from rfl] at hg
    match budget, hb with
    | b + 1, _ =>
      simp only [provisionAttempts, hg, hgt, if_true]
      have hrec := ih b (idx + 1) f
        (fun i hi => by
          have h2 := hall (i + 1) (by omega)
          rwa [show idx + (i + 1) = idx + 1 + i from by omega] at h2)
        (by rwa [show idx + 1 + j = idx + (j + 1) from by omega])
        hf (by omega)
      refine ⟨?_, ?_⟩ <;> simp [hrec.1, hrec.2]

theorem provisionAttempts_transient : ∀ (provider : Nat → Except PFail String) base budget idx,
    (∀ i, ∃ g, provider i = .error g ∧ g.isTransient = true) →
    (provisionAttempts provider base idx budget).calls = budget + 1 ∧
    (provisionAttempts provider base idx budget).delays
      = (List.range budget).map (fun i => base * 2 ^ (idx + i)) := by
  intro provider base budget
  induction budget with
  | zero =>
    intro idx hall
    obtain ⟨g, hg, hgt⟩ := hall idx
    simp [provisionAttempts, hg]
  | succ b ih =>
    intro idx hall
    obtain ⟨g, hg, hgt⟩ := hall idx
    simp only [provisionAttempts, hg, hgt, if_true]
    obtain ⟨h1, h2⟩ := ih (idx + 1) hall
    constructor
    · simp [h1]
    · simp only [h2, List.range_succ_eq_map, List.map_cons, List.map_map]
      simp
      intro a _
      omega

/- ## Example fixtures -/

/-- A fresh, never-provisioned cluster record. -/
def freshCluster : ClusterState := ⟨.unprovisioned, 0, none, 5, 0, false⟩

/-- An unprovisioned cluster that (impossibly per the intended invariant)
still has an armed autostop timer; exercises the teardown branches. -/
def unprovCluster : ClusterState := ⟨.unprovisioned, 0, some 5, 5, 0, false⟩

/-- A running cluster with an armed autostop timer and no in-flight calls. -/
def runningCluster : ClusterState := ⟨.running, 1, some 2, 2, 0, true⟩

/-- A running cluster at timer expiry with one in-flight call. -/
def busyCluster : ClusterState := ⟨.running, 1, some 0, 2, 1, true⟩

/-- A healthy provisioning environment. -/
def goodEnv : ProvEnv := ⟨true, true⟩

/- ## Claim theorems: lifecycle -/

/-- C1: for every cluster name, if N callers invoke `ensure_up`
concurrently while the cluster is UNPROVISIONED (callers serialize on the
per-name provisioning lock), exactly one provider "create instance" call
is issued, every caller observes the same `ok` outcome, and the final
status is RUNNING — so no duplicate instances are created for the name. -/
theorem ensureUp_concurrent_idempotent : ∀ (env : ProvEnv) (st : ClusterState) (n : Nat),
    env.provisionOk = true → env.probeOk = true →
    st.status = .unprovisioned → st.createCalls = 0 → 1 ≤ n →
    (runCallers env n st).1.createCalls = 1 ∧
    (runCallers env n st).1.status = .running ∧
    (runCallers env n st).2 = List.replicate n .ok := by
  intro env st n hpv hpb hs hc hn
  match n, hn with
  | n + 1, _ =>
    have he : ensureUp env st = (provisionedOf st, .ok) := by
      rw [ensureUp.eq_def, hs]
      simp [provisionNow, provisionedOf, hpv]
    have h1 : (provisionedOf st).status = .running := by simp [provisionedOf, resetTimer]
    have h2 : (provisionedOf st).createCalls = 1 := by simp [provisionedOf, resetTimer, hc]
    obtain ⟨q1, q2, q3⟩ := runCallers_of_running env n _ hpb h1
    refine ⟨?_, ?_, ?_⟩ <;>
      simp [runCallers, he, q1, q2, q3, h2, List.replicate_succ]

/-- C1 witness: three concurrent callers on a fresh unprovisioned
cluster issue one create call, end RUNNING, and all observe `ok`. -/
theorem ensureUp_concurrent_idempotent_witness :
    goodEnv.provisionOk = true ∧ goodEnv.probeOk = true ∧
    freshCluster.status = .unprovisioned ∧ freshCluster.createCalls = 0 ∧ 1 ≤ 3 ∧
    ((runCallers goodEnv 3 freshCluster).1.createCalls = 1 ∧
     (runCallers goodEnv 3 freshCluster).1.status = .running ∧
     (runCallers goodEnv 3 freshCluster).2 = List.replicate 3 .ok) :=
  ⟨rfl, rfl, rfl, rfl, by omega,
    ensureUp_concurrent_idempotent goodEnv freshCluster 3 rfl rfl rfl rfl (by omega)⟩

/-- C2: every transition of the ClusterLifecycleManager's state machine
follows one of the specified status edges, and a TERMINATED cluster is
never resurrected under the same instance identity: any later RUNNING
state (necessarily via relaunch) carries a strictly larger generation. -/
theorem lifecycle_status_machine :
    (∀ s s', LMStep s s' → allowedEdge s.status s'.status = true) ∧
    (∀ s s', Relation.ReflTransGen LMStep s s' → s.status = .terminated →
      s'.status = .running → s.gen < s'.gen) := by
  refine ⟨lmstep_allowed, ?_⟩
  intro s s' h hterm hrun
  rcases Relation.ReflTransGen.cases_head h with heq | ⟨mid, hstep, hrest⟩
  · subst heq
    rw [hterm] at hrun
    exact absurd hrun (by simp)
  · have h1 := lmstep_terminated_gen s mid hstep hterm
    have h2 := rtg_gen_le mid s' hrest
    omega

/-- C2 witness: a relaunch step out of TERMINATED follows an allowed
edge, and reaching RUNNING again strictly increases the generation. -/
theorem lifecycle_status_machine_witness :
    LMStep ⟨.terminated, 4⟩ ⟨.provisioning, 5⟩ ∧
    allowedEdge Status.terminated Status.provisioning = true ∧
    Relation.ReflTransGen LMStep ⟨.terminated, 4⟩ ⟨.running, 5⟩ ∧
    (4 : Nat) < 5 := by
  have hstep : LMStep ⟨.terminated, 4⟩ ⟨.provisioning, 5⟩ := .relaunch _ rfl
  have hchain : Relation.ReflTransGen LMStep ⟨.terminated, 4⟩ ⟨.running, 5⟩ :=
    .head hstep (.single (.provisionOk _ rfl))
  exact ⟨hstep, lifecycle_status_machine.1 _ _ hstep, hchain,
    lifecycle_status_machine.2 _ _ hchain rfl rfl⟩

/-- C7 counterexample: on an UNPROVISIONED cluster, `teardown` is a
no-op on the status (per the spec's own no-op clause), so calling it
twice does not leave `status == TERMINATED` as the claim states. -/
theorem teardown_twice_unprovisioned_counterexample :
    (teardown (teardown unprovCluster)).status ≠ .terminated := by decide

/-- C7 (amended): `teardown` is idempotent and never errors (it is a
total function); if the status is already TERMINATED or UNPROVISIONED it
changes nothing except cancelling the autostop timer; calling it twice
leaves `status == TERMINATED` whenever the cluster was not
UNPROVISIONED (an UNPROVISIONED cluster stays UNPROVISIONED); and it
always cancels the autostop timer. -/
theorem teardown_idempotent : ∀ st : ClusterState,
    teardown (teardown st) = teardown st ∧
    (teardown st).timer = none ∧
    (st.status ≠ .unprovisioned → (teardown st).status = .terminated) ∧
    (st.status = .unprovisioned → teardown st = {st with timer := none}) ∧
    (st.status = .terminated → teardown st = {st with timer := none}) := by
  intro st
  obtain ⟨stat, cc, tm, am, infl, cn⟩ := st
  cases stat <;> simp [teardown]

/-- C7 witness: tearing a RUNNING cluster down twice is the same as
once, ends TERMINATED, and cancels the timer. -/
theorem teardown_idempotent_witness :
    teardown (teardown runningCluster) = teardown runningCluster ∧
    (teardown runningCluster).timer = none ∧
    runningCluster.status ≠ .unprovisioned ∧
    (teardown runningCluster).status = .terminated := by
  obtain ⟨h1, h2, h3, _, _⟩ := teardown_idempotent runningCluster
  exact ⟨h1, h2, by decide, h3 (by decide)⟩

/-- C8: with autostop enabled, every successful dispatch resets the
countdown to `autostop_minutes`; at expiry with no pending in-flight
calls, ticks trigger `teardown` and the cluster reaches TERMINATED
within the bounded window of `timer + 1` ticks; and an in-flight call is
never interrupted — at expiry the timer is extended while the call
count and status are untouched. -/
theorem autostop_policy : ∀ (st : ClusterState) (k : Nat),
    (0 < st.autostopMinutes →
      (astep st (.callEnd true)).timer = some st.autostopMinutes) ∧
    (st.timer = some k → st.inFlight = 0 → st.status ≠ .unprovisioned →
      (ticks (k + 1) st).status = .terminated) ∧
    (st.timer = some 0 → 0 < st.inFlight →
      astep st .tick = resetTimer st ∧
      (astep st .tick).inFlight = st.inFlight ∧
      (astep st .tick).status = st.status) := by
  intro st k
  refine ⟨?_, fun ht hf hs => ticks_expire k st ht hf hs, fun ht hf => ?_⟩
  · intro ham
    simp [astep, resetTimer, show ¬ st.autostopMinutes = 0 from by omega]
  · have hne : ¬ st.inFlight = 0 := by omega
    refine ⟨?_, ?_, ?_⟩ <;> simp [astep, ht, hne, resetTimer]

/-- C8 witness: a successful dispatch resets the running cluster's
countdown; three idle ticks terminate it; and at expiry the busy
cluster's in-flight call survives while the timer is extended. -/
theorem autostop_policy_witness :
    (0 < runningCluster.autostopMinutes ∧
      (astep runningCluster (.callEnd true)).timer = some runningCluster.autostopMinutes) ∧
    (runningCluster.timer = some 2 ∧ runningCluster.inFlight = 0 ∧
      runningCluster.status ≠ .unprovisioned ∧
      (ticks 3 runningCluster).status = .terminated) ∧
    (busyCluster.timer = some 0 ∧ 0 < busyCluster.inFlight ∧
      astep busyCluster .tick = resetTimer busyCluster ∧
      (astep busyCluster .tick).inFlight = busyCluster.inFlight ∧
      (astep busyCluster .tick).status = busyCluster.status) := by
  obtain ⟨h1, h2, _⟩ := autostop_policy runningCluster 2
  obtain ⟨_, _, h3⟩ := autostop_policy busyCluster 0
  refine ⟨⟨by decide, h1 (by decide)⟩, ⟨rfl, rfl, by decide, h2 rfl rfl (by decide)⟩, ?_⟩
  obtain ⟨g1, g2, g3⟩ := h3 rfl (by decide)
  exact ⟨rfl, by decide, g1, g2, g3⟩

/-- C9: provisioning makes at most `maxRetries + 1` provider calls; a
fatal failure (quota exceeded, invalid credentials) on the first attempt
is surfaced immediately with exactly one call, no retry and no backoff
sleep; under persistent transient failures (rate limit, capacity) every
retry of the bounded budget is used with exponential backoff delays
`base * 2 ^ i`; and after any run of transient failures a fatal failure
still stops the run immediately. -/
theorem provisioning_retry_policy : ∀ (provider : Nat → Except PFail String)
    (base maxRetries : Nat) (f : PFail),
    ((provision provider base maxRetries).calls ≤ maxRetries + 1) ∧
    (provider 0 = .error f → f.isTransient = false →
      provision provider base maxRetries = ⟨1, [], .error f⟩) ∧
    ((∀ i, ∃ g, provider i = .error g ∧ g.isTransient = true) →
      (provision provider base maxRetries).calls = maxRetries + 1 ∧
      (provision provider base maxRetries).delays
        = (List.range maxRetries).map (fun i => base * 2 ^ i)) ∧
    (∀ k, k ≤ maxRetries →
      (∀ i, i < k → ∃ g, provider i = .error g ∧ g.isTransient = true) →
      provider k = .error f → f.isTransient = false →
      (provision provider base maxRetries).result = .error f ∧
      (provision provider base maxRetries).calls = k + 1) := by
  intro provider base maxRetries f
  refine ⟨provisionAttempts_calls_le provider base maxRetries 0, ?_, ?_, ?_⟩
  · intro h0 hf
    cases maxRetries with
    | zero => simp [provision, provisionAttempts, h0]
    | succ b => simp [provision, provisionAttempts, h0, hf]
  · intro hall
    obtain ⟨h1, h2⟩ := provisionAttempts_transient provider base maxRetries 0 hall
    exact ⟨h1, by simpa using h2⟩
  · intro k hk hall hfk hf
    exact provisionAttempts_fatal provider base k maxRetries 0 f
      (fun i hi => by simpa using hall i hi) (by simpa using hfk) hf hk

/-- A provider whose credentials are always rejected (fatal). -/
def providerFatal : Nat → Except PFail String := fun _ => .error .invalidCredentials

/-- A provider that is always at capacity (transient). -/
def providerBusy : Nat → Except PFail String := fun _ => .error .capacity

/-- C9 witness: the fatal provider is surfaced after exactly one call
with no backoff; the transient provider exhausts the budget of 3
retries with exponential delays 7, 14, 28. -/
theorem provisioning_retry_policy_witness :
    ((provision providerFatal 7 3).calls ≤ 3 + 1) ∧
    (providerFatal 0 = .error .invalidCredentials ∧
      PFail.isTransient .invalidCredentials = false ∧
      provision providerFatal 7 3 = ⟨1, [], .error .invalidCredentials⟩) ∧
    ((provision providerBusy 7 3).calls = 3 + 1 ∧
      (provision providerBusy 7 3).delays = [7, 14, 28]) := by
  obtain ⟨h1, h2, _, _⟩ := provisioning_retry_policy providerFatal 7 3 .invalidCredentials
  obtain ⟨_, _, h3, _⟩ := provisioning_retry_policy providerBusy 7 3 .invalidCredentials
  obtain ⟨g1, g2⟩ := h3 (fun i => ⟨.capacity, rfl, rfl⟩)
  exact ⟨h1, ⟨rfl, rfl, h2 rfl rfl⟩, g1, by rw [g2]; rfl⟩

/- ## Claim theorems: dispatch protocol -/

/-- C4: on a cluster with `den_auth_required = true`, a call that does
not carry a verifiable bearer credential is answered with an
authorization failure and no resource code is executed. -/
theorem den_auth_gate : ∀ (st : ServerState) (req : CallEnvelope),
    st.denAuthRequired = true → tokenValid st req.token = false →
    (handleCall st req).response
      = .authFailure "401: bearer credential missing or invalid" ∧
    (handleCall st req).executed = false := by
  intro st req hd ht
  have ha : authOk st req = false := by simp [authOk, hd, ht]
  constructor <;> simp [handleCall, ha]

/-- C6: every terminal envelope the server produces populates exactly
one of `data` and `error` — never both and never neither. -/
theorem envelope_data_error_exclusive : ∀ (st : ServerState) (req : CallEnvelope)
    (env : ResultEnvelope),
    (handleCall st req).response = .envelope env →
    env.outputType.isTerminal = true →
    (env.data.isSome = true ∧ env.error = none) ∨
    (env.data = none ∧ env.error.isSome = true) := by
  intro st req env h _
  by_cases ha : authOk st req
  · cases hl : lookupRes st.resources req.resource with
    | none =>
      simp [handleCall, ha, hl] at h
      subst h
      simp
    | some impl =>
      cases hi : impl req.args with
      | error e =>
        simp [handleCall, ha, hl, hi] at h
        subst h
        simp
      | ok v =>
        simp [handleCall, ha, hl, hi] at h
        subst h
        left
        cases req.serialization <;> simp [encodePayload]
  · simp [handleCall, ha] at h

/-- C3: whenever the auth gate passes, the server answers any call with
a well-formed envelope — never a transport-level fault — and whenever
the invoked resource fails (a missing resource name, or resource code
raising), the envelope has `output_type = exception` with non-null
`error` and `traceback`.  `handleCall` is a total function, so a failing
call cannot crash the dispatch server. -/
theorem execution_errors_as_envelopes : ∀ (st : ServerState) (req : CallEnvelope),
    authOk st req = true →
    (∀ msg, (handleCall st req).response ≠ .transportFault msg) ∧
    ∃ env, (handleCall st req).response = .envelope env ∧
      ((lookupRes st.resources req.resource = none ∨
          (∃ impl e, lookupRes st.resources req.resource = some impl ∧
            impl req.args = .error e)) →
        env.outputType = .exception ∧ env.error ≠ none ∧ env.traceback ≠ none) := by
  intro st req ha
  cases hl : lookupRes st.resources req.resource with
  | none =>
    refine ⟨by simp [handleCall, ha, hl], ?_⟩
    refine ⟨⟨none, some ("ResourceNotFound: " ++ req.resource),
        some "Traceback: resource lookup failed", .exception, req.serialization⟩,
      by simp [handleCall, ha, hl], fun _ => ?_⟩
    simp
  | some impl =>
    cases hi : impl req.args with
    | error e =>
      refine ⟨by simp [handleCall, ha, hl, hi], ?_⟩
      refine ⟨⟨none, some e.message, some e.trace, .exception, req.serialization⟩,
        by simp [handleCall, ha, hl, hi], fun _ => ?_⟩
      simp
    | ok v =>
      refine ⟨by simp [handleCall, ha, hl, hi], ?_⟩
      refine ⟨⟨(encodePayload req.serialization v).1, none, none,
          (encodePayload req.serialization v).2, req.serialization⟩,
        by simp [handleCall, ha, hl, hi], fun hbad => ?_⟩
      rcases hbad with hnone | ⟨impl', e, heq, herr⟩
      · exact absurd hnone (by simp)
      · have himp : impl = impl' := by injection heq
        subst himp
        rw [hi] at herr
        exact absurd herr (by simp)

/-- C5: dispatching a no-op identity function with any serializable
argument `v` through DispatchClient/DispatchServer returns a terminal
envelope with `error = null` whose payload decodes back to exactly `v`
(and is literally `v` under the unserialized wire format): dispatch
round-trips any serializable argument unchanged. -/
theorem dispatch_identity_roundtrip : ∀ (st : ServerState) (name : String) (v : Value)
    (token : Option String) (ser : Serialization),
    lookupRes st.resources name = some identityImpl →
    authOk st ⟨name, "call", [v], token, ser, false, false⟩ = true →
    ∃ env, (clientCall st name [v] token ser).response = .envelope env ∧
      env.outputType.isTerminal = true ∧
      env.error = none ∧
      decodeData env = some v ∧
      (ser = .raw → env.data = some v) := by
  intro st name v token ser hl ha
  have hi : identityImpl [v] = .ok v := rfl
  cases ser with
  | raw =>
    refine ⟨⟨some v, none, none, .result, .raw⟩, ?_, rfl, rfl, rfl, fun _ => rfl⟩
    simp [clientCall, handleCall, ha, hl, hi, encodePayload]
  | json =>
    refine ⟨⟨some (.str (jsonEncode v)), none, none, .resultSerialized, .json⟩,
      ?_, rfl, rfl, ?_, fun h => nomatch h⟩
    · simp [clientCall, handleCall, ha, hl, hi, encodePayload]
    · simp [decodeData, jsonDecode_jsonEncode]
  | pickleEquiv =>
    refine ⟨⟨some (.str (jsonEncode v)), none, none, .resultSerialized, .pickleEquiv⟩,
      ?_, rfl, rfl, ?_, fun h => nomatch h⟩
    · simp [clientCall, handleCall, ha, hl, hi, encodePayload]
    · simp [decodeData, jsonDecode_jsonEncode]

/-- C10: at the HTTP call endpoint with `serialization = "json"`, a
successful call's terminal envelope has `output_type =
result_serialized` and carries in `data` the JSON-encoded string of the
return value — a returned string appears JSON-quoted inside `data` —
with `error` and `traceback` null; the client recovers the value by
decoding `data`. -/
theorem http_call_serialized_data : ∀ (st : ServerState) (name : String)
    (impl : List Value → Except RemoteErr Value) (args : List Value) (v : Value)
    (token : Option String),
    lookupRes st.resources name = some impl →
    impl args = .ok v →
    authOk st ⟨name, "call", args, token, .json, false, false⟩ = true →
    ∃ env,
      (handleCall st ⟨name, "call", args, token, .json, false, false⟩).response
        = .envelope env ∧
      env.outputType = .resultSerialized ∧
      env.serialization = .json ∧
      env.data = some (.str (jsonEncode v)) ∧
      env.error = none ∧
      env.traceback = none ∧
      jsonDecode (jsonEncode v) = some v ∧
      (∀ s, ∃ t, jsonEncode (.str s) = String.mk ('"' :: t)) := by
  intro st name impl args v token hl hi ha
  refine ⟨⟨some (.str (jsonEncode v)), none, none, .resultSerialized, .json⟩,
    ?_, rfl, rfl, rfl, rfl, rfl, jsonDecode_jsonEncode v,
    fun s => ⟨escStr s.data ++ ['"'], rfl⟩⟩
  simp [handleCall, ha, hl, hi, encodePayload]

/- ## Dispatch fixtures and witnesses -/

/-- An open server (no den auth) exposing the identity resource under
the name `run_home`. -/
def idServer : ServerState := ⟨[("run_home", identityImpl)], false, []⟩

/-- A den-auth-protected server with one valid token. -/
def authServer : ServerState := ⟨[("run_home", identityImpl)], true, ["secret-token"]⟩

/-- A call to a resource name that is not registered. -/
def reqMissing : CallEnvelope := ⟨"nope", "call", [], none, .json, false, false⟩

/-- A call without any bearer token. -/
def reqNoToken : CallEnvelope := ⟨"run_home", "call", [.str "Marvin"], none, .json, false, false⟩

/-- A well-formed identity call under the raw wire format. -/
def reqOk : CallEnvelope := ⟨"run_home", "call", [.int 7], none, .raw, false, false⟩

/-- C4 witness: the unauthenticated call to the protected server gets
the authorization failure and no execution. -/
theorem den_auth_gate_witness :
    authServer.denAuthRequired = true ∧
    tokenValid authServer reqNoToken.token = false ∧
    (handleCall authServer reqNoToken).response
      = .authFailure "401: bearer credential missing or invalid" ∧
    (handleCall authServer reqNoToken).executed = false := by
  obtain ⟨h1, h2⟩ := den_auth_gate authServer reqNoToken rfl rfl
  exact ⟨rfl, rfl, h1, h2⟩

/-- C6 witness: the identity call's terminal envelope populates `data`
and leaves `error` null. -/
theorem envelope_data_error_exclusive_witness :
    (handleCall idServer reqOk).response
      = .envelope ⟨some (.int 7), none, none, .result, .raw⟩ ∧
    OutputType.isTerminal .result = true ∧
    (((some (Value.int 7)).isSome = true ∧ (none : Option String) = none) ∨
      ((some (Value.int 7)) = none ∧ (none : Option String).isSome = true)) :=
  ⟨rfl, rfl, envelope_data_error_exclusive idServer reqOk _ rfl rfl⟩

/-- C3 witness: calling the unregistered name `nope` on the open server
yields an exception envelope with populated error and traceback, and no
transport fault. -/
theorem execution_errors_as_envelopes_witness :
    authOk idServer reqMissing = true ∧
    ((∀ msg, (handleCall idServer reqMissing).response ≠ .transportFault msg) ∧
      ∃ env, (handleCall idServer reqMissing).response = .envelope env ∧
        ((lookupRes idServer.resources reqMissing.resource = none ∨
            (∃ impl e, lookupRes idServer.resources reqMissing.resource = some impl ∧
              impl reqMissing.args = .error e)) →
          env.outputType = .exception ∧ env.error ≠ none ∧ env.traceback ≠ none)) :=
  ⟨rfl, execution_errors_as_envelopes idServer reqMissing rfl⟩

/-- C5 witness: the identity dispatch of the string `"Marvin"` under the
json wire format decodes back to exactly that value with null error. -/
theorem dispatch_identity_roundtrip_witness :
    lookupRes idServer.resources "run_home" = some identityImpl ∧
    authOk idServer ⟨"run_home", "call", [.str "Marvin"], none, .json, false, false⟩ = true ∧
    ∃ env, (clientCall idServer "run_home" [.str "Marvin"] none .json).response
        = .envelope env ∧
      env.outputType.isTerminal = true ∧
      env.error = none ∧
      decodeData env = some (.str "Marvin") ∧
      (Serialization.json = .raw → env.data = some (.str "Marvin")) :=
  ⟨rfl, rfl, dispatch_identity_roundtrip idServer "run_home" (.str "Marvin") none .json rfl rfl⟩

/-- C10 witness: the http-endpoint identity call on `"Marvin"` returns
`data` holding the JSON-quoted string, with null error/traceback. -/
theorem http_call_serialized_data_witness :
    lookupRes idServer.resources "run_home" = some identityImpl ∧
    identityImpl [.str "Marvin"] = .ok (.str "Marvin") ∧
    authOk idServer ⟨"run_home", "call", [.str "Marvin"], none, .json, false, false⟩ = true ∧
    ∃ env,
      (handleCall idServer
          ⟨"run_home", "call", [.str "Marvin"], none, .json, false, false⟩).response
        = .envelope env ∧
      env.outputType = .resultSerialized ∧
      env.serialization = .json ∧
      env.data = some (.str (jsonEncode (.str "Marvin"))) ∧
      env.error = none ∧
      env.traceback = none ∧
      jsonDecode (jsonEncode (.str "Marvin")) = some (.str "Marvin") ∧
      (∀ s, ∃ t, jsonEncode (.str s) = String.mk ('"' :: t)) :=
  ⟨rfl, rfl, rfl, http_call_serialized_data idServer "run_home" identityImpl
    [.str "Marvin"] (.str "Marvin") none rfl rfl rfl⟩
